import Mathlib

/-!
Verification development for the face crop/resize pipeline
(`scripts/2_face_crop_resize.py` of Gallagher_Photo_Sync).

The Python source is shallowly embedded: pure helpers become Lean
functions, the effectful per-image pipeline becomes a function of an
explicit environment record describing the outcome of each external
call (image decode, face detection, JPEG encoding, file moves), and
the unbounded `while` loop of the quality optimizer is modelled with
explicit fuel, where a `none` result means the loop has not finished
within the given fuel.
-/

namespace FaceCrop

/-! ## Quality-optimized JPEG encoding

Model of `FaceProcessor._save_with_quality_optimization`.  The JPEG
codec is abstracted as `encode : Int → Option Nat`: for a quality
value it yields the encoded byte length, or `none` when `cv2.imencode`
reports failure (`ret == False`).  The image itself is implicit in
`encode`.  Budgets and sizes are byte counts (`Nat`). -/

/-- One step of the `while quality >= quality_min` loop, with fuel.
Result `none`: fuel exhausted (models divergence); `some none`: loop
exited normally without a within-budget encode; `some (some (q, s))`:
returned from inside the loop with quality `q` and byte size `s`. -/
def loopAux (encode : Int → Option Nat) (budget : Nat) (qmin step : Int) :
    Int → Nat → Option (Option (Int × Nat))
  | _, 0 => none
  | q, fuel + 1 =>
    if qmin ≤ q then
      match encode q with
      | some s =>
        if s ≤ budget then some (some (q, s))
        else loopAux encode budget qmin step (q - step) fuel
      | none => loopAux encode budget qmin step (q - step) fuel
    else some none

/-- The descending list of quality values the loop would test starting
from `q`, with the same fuel discipline as `loopAux`. -/
def ladderAux (qmin step : Int) : Int → Nat → List Int
  | _, 0 => []
  | q, fuel + 1 =>
    if qmin ≤ q then q :: ladderAux qmin step (q - step) fuel else []

/-- Fuel sufficient for the loop whenever `1 ≤ step`. -/
def saveFuel (qstart qmin : Int) : Nat := (qstart - qmin).toNat + 2

/-- The quality ladder `quality_start, quality_start − step, …` (while
`≥ quality_min`), as explored by the loop under the standard fuel. -/
def qualityLadder (qstart qmin step : Int) : List Int :=
  ladderAux qmin step qstart (saveFuel qstart qmin)

/-- `_save_with_quality_optimization`: run the descending-quality loop;
on normal exit force one more encode at `quality_min` and persist it
regardless of size, raising (`Except.error`) only if that forced encode
fails.  Outer `none` means the loop never finished (fuel ran out, which
under `1 ≤ step` is impossible). -/
def save_with_quality_optimization (encode : Int → Option Nat)
    (max_size_kb : Nat) (qstart qmin step : Int) :
    Option (Except Unit (Int × Nat)) :=
  match loopAux encode (max_size_kb * 1024) qmin step qstart (saveFuel qstart qmin) with
  | none => none
  | some (some (q, s)) => some (.ok (q, s))
  | some none =>
    match encode qmin with
    | some s => some (.ok (qmin, s))
    | none => some (.error ())

/-- A quality value whose encode succeeds within the byte budget. -/
def goodQuality (encode : Int → Option Nat) (budget : Nat) (q : Int) : Prop :=
  ∃ s, encode q = some s ∧ s ≤ budget

instance (encode : Int → Option Nat) (budget : Nat) (q : Int) :
    Decidable (goodQuality encode budget q) := by
  unfold goodQuality
  cases h : encode q with
  | none => exact .isFalse (by simp [h])
  | some s =>
    exact if hs : s ≤ budget then .isTrue ⟨s, rfl, hs⟩
      else .isFalse (by simp [h]; omega)

/-! ## Crop geometry

Model of `FaceProcessor.clamp` and `FaceProcessor.calculate_crop_region`.
Detector bounding-box coordinates are floats in the source and are
modelled as rationals; Python `int()` truncates toward zero and `//`
is floor division. -/

/-- Python `int(q)`: truncation toward zero. -/
def pyInt (q : ℚ) : Int := if 0 ≤ q then ⌊q⌋ else ⌈q⌉

/-- `clamp(val, minval, maxval) = max(min(val, maxval), minval)`. -/
def clamp (val minval maxval : Int) : Int := max (min val maxval) minval

/-- A face candidate from the external detector: bounding box corners
and, when present, the detection score (`det_score` may be absent,
in which case the pipeline uses confidence 1.0). -/
structure Face where
  x1 : ℚ
  y1 : ℚ
  x2 : ℚ
  y2 : ℚ
  det_score : Option ℚ
deriving DecidableEq

/-- The ranking key the source actually uses at line 178:
`f.bbox[2] * f.bbox[3]`, i.e. the product of the absolute bottom-right
corner coordinates. -/
def bboxCornerKey (f : Face) : ℚ := f.x2 * f.y2

/-- Modelled from the spec: bounding-box area, width × height, i.e.
`(x2 − x1) · (y2 − y1)` — the ranking key the claim describes.  Used
only to compare against the source's `bboxCornerKey`. -/
def bboxAreaKey (f : Face) : ℚ := (f.x2 - f.x1) * (f.y2 - f.y1)

/-- Python `max(xs, key=k)`: scan keeping the current maximum, replacing
it only on a strictly larger key, so ties go to the first occurrence. -/
def maxByFirst (key : Face → ℚ) : Face → List Face → Face
  | best, [] => best
  | best, f :: rest => maxByFirst key (if key best < key f then f else best) rest

/-- Face selection over the detector's candidate list (`None` when the
list is empty, mirroring the `if not faces` early return). -/
def selectFace (faces : List Face) : Option Face :=
  match faces with
  | [] => none
  | f :: rest => some (maxByFirst bboxCornerKey f rest)

/-- `float(face.det_score) if hasattr(face, 'det_score') else 1.0`. -/
def faceConfidence (f : Face) : ℚ := f.det_score.getD 1

/-- `calculate_crop_region`: integer-truncate the box, compute its
center with floor division, pad by the truncated products with the
padding factors, and clamp each coordinate to the image bounds.
Returns `(x1_crop, y1_crop, x2_crop, y2_crop)`. -/
def calculate_crop_region (padWF padHF : ℚ) (face : Face)
    (height width : Nat) : Int × Int × Int × Int :=
  let x1 := pyInt face.x1
  let y1 := pyInt face.y1
  let x2 := pyInt face.x2
  let y2 := pyInt face.y2
  let w := x2 - x1
  let h := y2 - y1
  let cx := Int.fdiv (x1 + x2) 2
  let cy := Int.fdiv (y1 + y2) 2
  let pad_w := pyInt ((w : ℚ) * padWF)
  let pad_h := pyInt ((h : ℚ) * padHF)
  (clamp (cx - pad_w) 0 width, clamp (cy - pad_h) 0 height,
   clamp (cx + pad_w) 0 width, clamp (cy + pad_h) 0 height)

/-- The numpy slice `image[y1:y2, x1:x2]` of the crop rectangle
`(x1, y1, x2, y2)` has `size == 0` exactly when one of the slices is
empty: `x2 ≤ x1` or `y2 ≤ y1`. -/
def cropEmpty (r : Int × Int × Int × Int) : Bool :=
  decide (r.2.2.1 ≤ r.1) || decide (r.2.2.2 ≤ r.2.1)

/-! ## Per-image pipeline

`process_single_image` is embedded as a function of an environment
record carrying the outcomes of the external calls it makes.  Each
`…_exn` field injects an unanticipated exception (its message) at the
corresponding stage; `none` means the stage does not raise. -/

/-- Mirror of the `ProcessingResult` dataclass. -/
structure ProcessingResult where
  filename : String
  success : Bool
  face_detected : Bool
  face_confidence : ℚ
  original_size : Nat × Nat
  output_size : Nat × Nat
  file_size_kb : ℚ
  jpeg_quality : Int
  error_message : String := ""
  processing_time : ℚ := 0
deriving DecidableEq

/-- The configuration fields the pipeline reads. -/
structure Config where
  padding_width_factor : ℚ
  padding_height_factor : ℚ
  min_face_confidence : ℚ
  target_size : Nat × Nat
  max_file_size_kb : Nat
  jpeg_quality_start : Int
  jpeg_quality_min : Int
  jpeg_quality_step : Int

/-- Environment of one `process_single_image` call: outcomes of the
external operations, exception injection points, and the elapsed
wall-clock time observed when a timed result is constructed. -/
structure ImageEnv where
  filename : String
  read_exn : Option String
  image : Option (Nat × Nat)
  detect_exn : Option String
  faces : List Face
  resize_exn : Option String
  write_exn : Option String
  encode : Int → Option Nat
  elapsed : ℚ

/-- The generic failure record built by the `except Exception` handler:
`face_detected=False`, confidence 0.0, zero sizes, the exception's
message, and the elapsed time. -/
def exceptionResult (name msg : String) (t : ℚ) : ProcessingResult :=
  { filename := name, success := false, face_detected := false,
    face_confidence := 0, original_size := (0, 0), output_size := (0, 0),
    file_size_kb := 0, jpeg_quality := 0, error_message := msg,
    processing_time := t }

/-- The body of the `try` block of `process_single_image`.  `some (.ok r)`
is a normal return, `some (.error m)` an exception escaping the body
(to be caught by the handler), and `none` divergence inside the quality
loop.  `image` is `(height, width)`; `original_size` is
`(shape[1], shape[0]) = (width, height)`. -/
def tryBody (cfg : Config) (env : ImageEnv) :
    Option (Except String ProcessingResult) :=
  match env.read_exn with
  | some m => some (.error m)
  | none =>
  match env.image with
  | none => some (.ok
      { filename := env.filename, success := false, face_detected := false,
        face_confidence := 0, original_size := (0, 0), output_size := (0, 0),
        file_size_kb := 0, jpeg_quality := 0,
        error_message := "Failed to read image" })
  | some (h, w) =>
  match env.detect_exn with
  | some m => some (.error m)
  | none =>
  match env.faces with
  | [] => some (.ok
      { filename := env.filename, success := false, face_detected := false,
        face_confidence := 0, original_size := (w, h), output_size := (0, 0),
        file_size_kb := 0, jpeg_quality := 0,
        error_message := "No face detected" })
  | f0 :: rest =>
    if faceConfidence (maxByFirst bboxCornerKey f0 rest) <
        cfg.min_face_confidence then some (.ok
      { filename := env.filename, success := false, face_detected := true,
        face_confidence := faceConfidence (maxByFirst bboxCornerKey f0 rest),
        original_size := (w, h), output_size := (0, 0),
        file_size_kb := 0, jpeg_quality := 0,
        error_message := "Face confidence below threshold" })
    else
      if cropEmpty (calculate_crop_region cfg.padding_width_factor
          cfg.padding_height_factor (maxByFirst bboxCornerKey f0 rest) h w)
      then some (.ok
        { filename := env.filename, success := false, face_detected := true,
          face_confidence := faceConfidence (maxByFirst bboxCornerKey f0 rest),
          original_size := (w, h),
          output_size := (0, 0), file_size_kb := 0, jpeg_quality := 0,
          error_message := "Cropped region is empty" })
      else
      match env.resize_exn with
      | some m => some (.error m)
      | none =>
      match env.write_exn with
      | some m => some (.error m)
      | none =>
      match save_with_quality_optimization env.encode cfg.max_file_size_kb
        cfg.jpeg_quality_start cfg.jpeg_quality_min cfg.jpeg_quality_step with
      | none => none
      | some (.error _) => some (.error "Failed to encode image")
      | some (.ok (q, s)) => some (.ok
        { filename := env.filename, success := true, face_detected := true,
          face_confidence := faceConfidence (maxByFirst bboxCornerKey f0 rest),
          original_size := (w, h),
          output_size := cfg.target_size, file_size_kb := (s : ℚ) / 1024,
          jpeg_quality := q, error_message := "",
          processing_time := env.elapsed })

/-- `process_single_image`: run the `try` body and convert any escaping
exception into the generic failure record (`none` = divergence of the
quality loop, impossible when `1 ≤ jpeg_quality_step`). -/
def process_single_image (cfg : Config) (env : ImageEnv) :
    Option ProcessingResult :=
  match tryBody cfg env with
  | none => none
  | some (.ok r) => some r
  | some (.error msg) => some (exceptionResult env.filename msg env.elapsed)

/-! ## Batch orchestration -/

/-- Outcome classification used by the batch statistics update. -/
inductive Outcome where
  | successful
  | no_face
  | poor_quality
  | failed
deriving DecidableEq

/-- The `if/elif/elif/else` classification of `process_batch`. -/
def classify (minConf : ℚ) (r : ProcessingResult) : Outcome :=
  if r.success then .successful
  else if !r.face_detected then .no_face
  else if r.face_confidence < minConf then .poor_quality
  else .failed

/-- Mirror of `self.stats`. -/
structure Stats where
  total_files : Nat := 0
  successful : Nat := 0
  failed : Nat := 0
  no_face : Nat := 0
  poor_quality : Nat := 0
deriving DecidableEq

/-- The statistics update performed once per processed image. -/
def updateStats (minConf : ℚ) (s : Stats) (r : ProcessingResult) : Stats :=
  let s := { s with total_files := s.total_files + 1 }
  match classify minConf r with
  | .successful => { s with successful := s.successful + 1 }
  | .no_face => { s with no_face := s.no_face + 1 }
  | .poor_quality => { s with poor_quality := s.poor_quality + 1 }
  | .failed => { s with failed := s.failed + 1 }

/-- One input file of a batch: its pipeline environment plus whether
the quarantine `rename` would raise for it. -/
structure BatchItem where
  env : ImageEnv
  move_fails : Bool

/-- `process_batch`: run the pipeline per file, collect results, update
statistics, and for every failed result attempt to move the source file
(original name) into the quarantine directory; a move failure is only
logged.  The returned move list holds `(filename, move succeeded)` per
attempted quarantine move.  `none` propagates pipeline divergence. -/
def process_batch (cfg : Config) :
    List BatchItem → Stats →
    Option (List ProcessingResult × Stats × List (String × Bool))
  | [], s => some ([], s, [])
  | it :: rest, s =>
    match process_single_image cfg it.env with
    | none => none
    | some r =>
      match process_batch cfg rest (updateStats cfg.min_face_confidence s r) with
      | none => none
      | some (rs, sf, mv) =>
        some (r :: rs, sf,
          if r.success then mv else (it.env.filename, !it.move_fails) :: mv)

/-! ## Input file enumeration -/

/-- `get_input_files`: for each configured extension glob `*ext` and
`*EXT` (the extension upper-cased, `ext.upper()`), concatenate, and
sort.  Directory entries are modelled by their filenames as character
lists; `glob` with pattern `*` followed by `ext` keeps the names
ending with `ext`, and `sorted` is the lexicographic sort. -/
def get_input_files (names supported_formats : List (List Char)) :
    List (List Char) :=
  List.insertionSort (· ≤ ·)
    (supported_formats.flatMap (fun ext =>
      names.filter (fun n => ext.isSuffixOf n) ++
      names.filter (fun n => (ext.map Char.toUpper).isSuffixOf n)))

/-- Modelled from the spec: "files matching configured extensions
(case-insensitive)" — a name matches an extension when it ends with it
up to letter case. -/
def matchesCaseInsensitive (ext name : List Char) : Bool :=
  (ext.map Char.toLower).isSuffixOf (name.map Char.toLower)

/-! ### Loop lemmas -/

/-- Every entry of the ladder starting at `q` is at most `q` (the loop
only ever decreases the quality when `0 ≤ step`). -/
theorem ladderAux_le (qmin step : Int) (hstep : 0 ≤ step) :
    ∀ (fuel : Nat) (q x : Int), x ∈ ladderAux qmin step q fuel → x ≤ q := by
  intro fuel
  induction fuel with
  | zero => intro q x hx; simp [ladderAux] at hx
  | succ n ih =>
    intro q x hx
    unfold ladderAux at hx
    by_cases hq : qmin ≤ q
    · simp only [hq, if_pos] at hx
      rcases List.mem_cons.mp hx with h | h
      · omega
      · have := ih (q - step) x h
        omega
    · simp [hq] at hx

/-- If the loop returns a pair `(q', s)`, then `q'` is on the explored
ladder, its encode succeeded with size `s` within budget, and every
ladder entry that is good is at most `q'` (so `q'` is the highest good
one). -/
theorem loopAux_found (encode : Int → Option Nat) (budget : Nat)
    (qmin step : Int) (hstep : 1 ≤ step) :
    ∀ (fuel : Nat) (q q' : Int) (s : Nat),
      loopAux encode budget qmin step q fuel = some (some (q', s)) →
      q' ∈ ladderAux qmin step q fuel ∧ encode q' = some s ∧ s ≤ budget ∧
        ∀ x ∈ ladderAux qmin step q fuel, goodQuality encode budget x → x ≤ q' := by
  intro fuel
  induction fuel with
  | zero => intro q q' s h; simp [loopAux] at h
  | succ n ih =>
    intro q q' s h
    unfold loopAux at h
    by_cases hq : qmin ≤ q
    · simp only [hq, if_pos] at h
      unfold ladderAux
      simp only [hq, if_pos]
      cases henc : encode q with
      | some sz =>
        rw [henc] at h
        by_cases hsz : sz ≤ budget
        · simp only [hsz, if_pos, Option.some.injEq, Prod.mk.injEq] at h
          obtain ⟨hq', hs⟩ := h
          subst hq' hs
          refine ⟨List.mem_cons_self _ _, henc, hsz, ?_⟩
          intro x hx _
          rcases List.mem_cons.mp hx with h | h
          · omega
          · have := ladderAux_le qmin step (by omega) n (q - step) x h
            omega
        · simp only [hsz, if_neg, not_false_iff] at h
          obtain ⟨hmem, he, hle, hmax⟩ := ih (q - step) q' s h
          refine ⟨List.mem_cons_of_mem _ hmem, he, hle, ?_⟩
          intro x hx hgood
          rcases List.mem_cons.mp hx with hxq | hxr
          · exfalso
            subst hxq
            obtain ⟨s0, hs0, hs0le⟩ := hgood
            rw [henc] at hs0
            cases hs0
            omega
          · exact hmax x hxr hgood
      | none =>
        rw [henc] at h
        obtain ⟨hmem, he, hle, hmax⟩ := ih (q - step) q' s h
        refine ⟨List.mem_cons_of_mem _ hmem, he, hle, ?_⟩
        intro x hx hgood
        rcases List.mem_cons.mp hx with hxq | hxr
        · exfalso
          subst hxq
          obtain ⟨s0, hs0, _⟩ := hgood
          rw [henc] at hs0
          cases hs0
        · exact hmax x hxr hgood
    · simp [hq] at h

/-- If the loop exits normally (`some none`), no explored ladder entry
was good. -/
theorem loopAux_exhausted (encode : Int → Option Nat) (budget : Nat)
    (qmin step : Int) :
    ∀ (fuel : Nat) (q : Int),
      loopAux encode budget qmin step q fuel = some none →
      ∀ x ∈ ladderAux qmin step q fuel, ¬ goodQuality encode budget x := by
  intro fuel
  induction fuel with
  | zero => intro q h; simp [loopAux] at h
  | succ n ih =>
    intro q h x hx hgood
    unfold loopAux at h
    unfold ladderAux at hx
    by_cases hq : qmin ≤ q
    · simp only [hq, if_pos] at h hx
      cases henc : encode q with
      | some sz =>
        rw [henc] at h
        by_cases hsz : sz ≤ budget
        · simp [hsz] at h
        · simp only [hsz, if_neg, not_false_iff] at h
          rcases List.mem_cons.mp hx with hxq | hxr
          · subst hxq
            obtain ⟨s0, hs0, hs0le⟩ := hgood
            rw [henc] at hs0
            cases hs0
            omega
          · exact ih (q - step) h x hxr hgood
      | none =>
        rw [henc] at h
        rcases List.mem_cons.mp hx with hxq | hxr
        · subst hxq
          obtain ⟨s0, hs0, _⟩ := hgood
          rw [henc] at hs0
          cases hs0
        · exact ih (q - step) h x hxr hgood
    · simp [hq] at hx

/-- With `1 ≤ step` the loop finishes within `(q − qmin).toNat + 2`
fuel. -/
theorem loopAux_terminates (encode : Int → Option Nat) (budget : Nat)
    (qmin step : Int) (hstep : 1 ≤ step) :
    ∀ (fuel : Nat) (q : Int), (q - qmin).toNat + 2 ≤ fuel →
      loopAux encode budget qmin step q fuel ≠ none := by
  intro fuel
  induction fuel with
  | zero => intro q hf; omega
  | succ n ih =>
    intro q hf
    unfold loopAux
    by_cases hq : qmin ≤ q
    · simp only [hq, if_pos]
      have hrec : loopAux encode budget qmin step (q - step) n ≠ none := by
        by_cases hq2 : qmin ≤ q - step
        · exact ih (q - step) (by omega)
        · match n, hf with
          | m + 1, _ => simp [loopAux, hq2]
      cases henc : encode q with
      | some sz =>
        by_cases hsz : sz ≤ budget
        · simp [hsz]
        · simpa [hsz] using hrec
      | none => exact hrec
    · simp [hq]

/-- When `step ≤ 0` and every successful encode is over budget, the
loop never finishes, whatever the fuel: the quality never drops below
`qmin`. -/
theorem loopAux_diverges (encode : Int → Option Nat) (budget : Nat)
    (qmin step : Int) (hstep : step ≤ 0)
    (hbad : ∀ q s, encode q = some s → budget < s) :
    ∀ (fuel : Nat) (q : Int), qmin ≤ q →
      loopAux encode budget qmin step q fuel = none := by
  intro fuel
  induction fuel with
  | zero => intro q _; rfl
  | succ n ih =>
    intro q hq
    unfold loopAux
    simp only [hq, if_pos]
    cases henc : encode q with
    | some sz =>
      have := hbad q sz henc
      have hsz : ¬ sz ≤ budget := by omega
      simp only [hsz, if_neg, not_false_iff]
      exact ih (q - step) (by omega)
    | none => exact ih (q - step) (by omega)

/-- With `1 ≤ step` the encoder model always yields a result. -/
theorem save_ne_none (encode : Int → Option Nat) (max_size_kb : Nat)
    (qstart qmin step : Int) (hstep : 1 ≤ step) :
    save_with_quality_optimization encode max_size_kb qstart qmin step ≠ none := by
  have hterm := loopAux_terminates encode (max_size_kb * 1024) qmin step hstep
    (saveFuel qstart qmin) qstart (by unfold saveFuel; omega)
  unfold save_with_quality_optimization
  cases hl : loopAux encode (max_size_kb * 1024) qmin step qstart
      (saveFuel qstart qmin) with
  | none => exact absurd hl hterm
  | some o =>
    cases o with
    | none =>
      cases encode qmin with
      | none => simp
      | some s => simp
    | some p => simp

/-- The explored ladder, with sufficient fuel, is exactly the
arithmetic sequence `q, q − step, q − 2·step, …` truncated below
`qmin`. -/
theorem mem_ladderAux (qmin step : Int) (hstep : 1 ≤ step) :
    ∀ (fuel : Nat) (q x : Int), (q - qmin).toNat + 2 ≤ fuel →
      (x ∈ ladderAux qmin step q fuel ↔
        ∃ k : Nat, x = q - (k : Int) * step ∧ qmin ≤ x) := by
  intro fuel
  induction fuel with
  | zero => intro q x hf; omega
  | succ n ih =>
    intro q x hf
    unfold ladderAux
    by_cases hq : qmin ≤ q
    · simp only [hq, if_pos]
      constructor
      · intro hx
        rcases List.mem_cons.mp hx with hxq | hxr
        · exact ⟨0, by simpa using hxq, by omega⟩
        · by_cases hq2 : qmin ≤ q - step
          · obtain ⟨k, hk, hkmin⟩ := (ih (q - step) x (by omega)).mp hxr
            refine ⟨k + 1, ?_, hkmin⟩
            push_cast
            linear_combination hk
          · exfalso
            match n, hf with
            | m + 1, _ => simp [ladderAux, hq2] at hxr
      · rintro ⟨k, hk, hkmin⟩
        cases k with
        | zero =>
          have hxq : x = q := by simpa using hk
          subst hxq
          exact List.mem_cons_self _ _
        | succ j =>
          have hjs : (0 : Int) ≤ (j : Int) * step :=
            mul_nonneg (Int.natCast_nonneg j) (by omega)
          have hexp : ((j : Int) + 1) * step = (j : Int) * step + step := by
            ring
          push_cast at hk
          have hxle : x ≤ q - step := by linarith
          have hq2 : qmin ≤ q - step := le_trans hkmin hxle
          apply List.mem_cons_of_mem
          refine (ih (q - step) x (by omega)).mpr ⟨j, ?_, hkmin⟩
          linear_combination hk
    · simp only [hq, if_neg, not_false_iff, List.not_mem_nil, false_iff,
        not_exists, not_and]
      rintro k hk
      intro hkmin
      have hknn : (0 : Int) ≤ (k : Int) * step :=
        mul_nonneg (Int.natCast_nonneg k) (by omega)
      omega

/-! ### Geometry lemmas -/

/-- Truncation toward zero preserves nonnegativity. -/
theorem pyInt_nonneg {q : ℚ} (h : 0 ≤ q) : 0 ≤ pyInt q := by
  simp only [pyInt, h, if_pos]
  exact Int.floor_nonneg.mpr h

/-- Truncation toward zero is monotone. -/
theorem pyInt_mono {q r : ℚ} (h : q ≤ r) : pyInt q ≤ pyInt r := by
  unfold pyInt
  by_cases hq : 0 ≤ q
  · have hr : 0 ≤ r := le_trans hq h
    simp only [hq, hr, if_pos]
    exact Int.floor_le_floor h
  · by_cases hr : 0 ≤ r
    · simp only [hq, hr, if_pos, if_neg, not_false_iff]
      have h1 : ⌈q⌉ ≤ (0 : ℤ) := by
        rw [Int.ceil_le]
        push_cast
        linarith
      exact le_trans h1 (Int.floor_nonneg.mpr hr)
    · simp only [hq, hr, if_neg, not_false_iff]
      exact Int.ceil_le_ceil h

/-- `clamp` never goes below its lower bound. -/
theorem clamp_lower (val minval maxval : Int) : minval ≤ clamp val minval maxval :=
  le_max_right _ _

/-- `clamp` never exceeds its upper bound, provided the bounds are
ordered. -/
theorem clamp_le_upper (val minval maxval : Int) (h : minval ≤ maxval) :
    clamp val minval maxval ≤ maxval :=
  max_le (min_le_right _ _) h

/-- `clamp` is monotone in the clamped value. -/
theorem clamp_mono (minval maxval : Int) {v w : Int} (h : v ≤ w) :
    clamp v minval maxval ≤ clamp w minval maxval :=
  max_le_max (min_le_min h le_rfl) le_rfl

/-! ### Pipeline and batch helpers -/

/-- The `try` body never diverges when the quality step is positive. -/
theorem tryBody_ne_none (cfg : Config) (env : ImageEnv)
    (hstep : 1 ≤ cfg.jpeg_quality_step) : tryBody cfg env ≠ none := by
  unfold tryBody
  cases env.read_exn with
  | some m => simp
  | none =>
  cases env.image with
  | none => simp
  | some hw =>
  obtain ⟨h, w⟩ := hw
  cases env.detect_exn with
  | some m => simp
  | none =>
  cases env.faces with
  | nil => simp
  | cons f0 rest =>
  dsimp only
  by_cases hconf : faceConfidence (maxByFirst bboxCornerKey f0 rest) <
      cfg.min_face_confidence
  · simp [hconf]
  · rw [if_neg hconf]
    by_cases hcrop : cropEmpty (calculate_crop_region cfg.padding_width_factor
        cfg.padding_height_factor (maxByFirst bboxCornerKey f0 rest) h w) = true
    · simp [hcrop]
    · rw [if_neg hcrop]
      cases env.resize_exn with
      | some m => simp
      | none =>
      cases env.write_exn with
      | some m => simp
      | none =>
      cases hsv : save_with_quality_optimization env.encode cfg.max_file_size_kb
          cfg.jpeg_quality_start cfg.jpeg_quality_min cfg.jpeg_quality_step with
      | none => exact absurd hsv (save_ne_none _ _ _ _ _ hstep)
      | some e =>
        cases e with
        | error u => simp
        | ok p => obtain ⟨q, s⟩ := p; simp

/-- The pipeline never diverges when the quality step is positive. -/
theorem process_single_image_ne_none (cfg : Config) (env : ImageEnv)
    (hstep : 1 ≤ cfg.jpeg_quality_step) :
    process_single_image cfg env ≠ none := by
  unfold process_single_image
  cases h : tryBody cfg env with
  | none => exact absurd h (tryBody_ne_none cfg env hstep)
  | some e => cases e <;> simp

/-- A single statistics update preserves the counter-sum invariant. -/
theorem updateStats_sum (m : ℚ) (s : Stats) (r : ProcessingResult)
    (h : s.total_files = s.successful + s.failed + s.no_face + s.poor_quality) :
    (updateStats m s r).total_files =
      (updateStats m s r).successful + (updateStats m s r).failed +
      (updateStats m s r).no_face + (updateStats m s r).poor_quality := by
  unfold updateStats
  cases classify m r <;> simp <;> omega

/-- The batch fold preserves the counter-sum invariant. -/
theorem process_batch_sum (cfg : Config) :
    ∀ (items : List BatchItem) (s : Stats)
      (rs : List ProcessingResult) (sf : Stats) (mv : List (String × Bool)),
      s.total_files = s.successful + s.failed + s.no_face + s.poor_quality →
      process_batch cfg items s = some (rs, sf, mv) →
      sf.total_files = sf.successful + sf.failed + sf.no_face + sf.poor_quality := by
  intro items
  induction items with
  | nil =>
    intro s rs sf mv hs h
    simp only [process_batch, Option.some.injEq, Prod.mk.injEq] at h
    obtain ⟨-, hsf, -⟩ := h
    exact hsf ▸ hs
  | cons it rest ih =>
    intro s rs sf mv hs h
    cases hp : process_single_image cfg it.env with
    | none => simp [process_batch, hp] at h
    | some r =>
      cases hb : process_batch cfg rest (updateStats cfg.min_face_confidence s r) with
      | none => simp [process_batch, hp, hb] at h
      | some triple =>
        obtain ⟨rs', sf', mv'⟩ := triple
        simp only [process_batch, hp, hb, Option.some.injEq, Prod.mk.injEq] at h
        obtain ⟨-, hsf, -⟩ := h
        exact hsf ▸ ih _ rs' sf' mv' (updateStats_sum _ s r hs) hb

/-- The batch run always succeeds (given a positive quality step),
produces one result per input file, and its quarantine-move list is
exactly the failed results' filenames, each paired with whether its
move succeeded. -/
theorem process_batch_spec (cfg : Config) (hstep : 1 ≤ cfg.jpeg_quality_step) :
    ∀ (items : List BatchItem) (s : Stats),
      ∃ rs sf mv, process_batch cfg items s = some (rs, sf, mv) ∧
        rs.length = items.length ∧
        mv = (items.zip rs).filterMap (fun p =>
          if p.2.success then none
          else some (p.1.env.filename, !p.1.move_fails)) := by
  intro items
  induction items with
  | nil => intro s; exact ⟨[], s, [], rfl, rfl, rfl⟩
  | cons it rest ih =>
    intro s
    cases hp : process_single_image cfg it.env with
    | none => exact absurd hp (process_single_image_ne_none cfg it.env hstep)
    | some r =>
      obtain ⟨rs, sf, mv, hb, hlen, hmv⟩ :=
        ih (updateStats cfg.min_face_confidence s r)
      refine ⟨r :: rs,  sf,
        (if r.success then mv else (it.env.filename, !it.move_fails) :: mv),
        ?_, by simp [hlen], ?_⟩
      · simp [process_batch, hp, hb]
      · simp only [List.zip_cons_cons, List.filterMap_cons]
        by_cases hrs : r.success = true
        · simp [hrs, hmv]
        · simp [hrs, hmv]

/-- The results and statistics of a batch do not depend on which
quarantine moves fail: overriding every `move_fails` flag changes only
the move list. -/
theorem process_batch_moves_irrelevant (cfg : Config) (b : Bool) :
    ∀ (items : List BatchItem) (s : Stats),
      Option.map (fun t => (t.1, t.2.1))
          (process_batch cfg
            (items.map (fun it => { it with move_fails := b })) s) =
        Option.map (fun t => (t.1, t.2.1)) (process_batch cfg items s) := by
  intro items
  induction items with
  | nil => intro s; rfl
  | cons it rest ih =>
    intro s
    cases hp : process_single_image cfg it.env with
    | none => simp [process_batch, hp]
    | some r =>
      have hih := ih (updateStats cfg.min_face_confidence s r)
      cases hb1 : process_batch cfg
          (rest.map (fun it => { it with move_fails := b }))
          (updateStats cfg.min_face_confidence s r) with
      | none =>
        cases hb2 : process_batch cfg rest
            (updateStats cfg.min_face_confidence s r) with
        | none => simp [process_batch, hp, hb1, hb2]
        | some t => rw [hb1, hb2] at hih; simp at hih
      | some t1 =>
        cases hb2 : process_batch cfg rest
            (updateStats cfg.min_face_confidence s r) with
        | none => rw [hb1, hb2] at hih; simp at hih
        | some t2 =>
          obtain ⟨rs1, sf1, mv1⟩ := t1
          obtain ⟨rs2, sf2, mv2⟩ := t2
          rw [hb1, hb2] at hih
          simp at hih
          obtain ⟨hrs, hsf⟩ := hih
          simp [process_batch, hp, hb1, hb2, hrs, hsf]

/-! ## Claim theorems -/

/-- Claim C1 (code bug evaluation).  The claim states that the selector
picks the candidate of maximal bounding-box area `(x2−x1)·(y2−y1)`; the
source ranks by `f.bbox[2] * f.bbox[3] = x2·y2` instead.  At this
concrete input the selector returns the second candidate although the
first has strictly larger area (and the second a strictly larger
corner product). -/
theorem claim_C1 :
    selectFace [⟨0, 0, 4, 4, none⟩, ⟨8, 8, 10, 10, none⟩] =
      some ⟨8, 8, 10, 10, none⟩ ∧
    bboxAreaKey (⟨8, 8, 10, 10, none⟩ : Face) <
      bboxAreaKey (⟨0, 0, 4, 4, none⟩ : Face) ∧
    bboxCornerKey (⟨0, 0, 4, 4, none⟩ : Face) <
      bboxCornerKey (⟨8, 8, 10, 10, none⟩ : Face) := by
  refine ⟨?_, by norm_num [bboxAreaKey], by norm_num [bboxCornerKey]⟩
  simp only [selectFace, maxByFirst, bboxCornerKey]
  norm_num

/-- Claim C2.  For every image (abstracted as its encode-size function)
and byte budget `B > 0`, under a positive quality step: the quality
ladder is `quality_start, quality_start − step, …` while `≥
quality_min`; if some ladder quality has a successful encode within
`B·1024` bytes then the encoder returns the highest such quality and a
size within budget; if no ladder quality does, any returned quality is
`quality_min`. -/
theorem claim_C2 (encode : Int → Option Nat) (max_size_kb : Nat)
    (qstart qmin step : Int) (hstep : 1 ≤ step) (hB : 0 < max_size_kb) :
    (∀ x : Int, x ∈ qualityLadder qstart qmin step ↔
      ∃ k : Nat, x = qstart - (k : Int) * step ∧ qmin ≤ x) ∧
    ((∃ q0 ∈ qualityLadder qstart qmin step,
        goodQuality encode (max_size_kb * 1024) q0) →
      ∃ q s, save_with_quality_optimization encode max_size_kb qstart qmin step =
          some (.ok (q, s)) ∧
        q ∈ qualityLadder qstart qmin step ∧ encode q = some s ∧
        s ≤ max_size_kb * 1024 ∧
        ∀ q' ∈ qualityLadder qstart qmin step,
          goodQuality encode (max_size_kb * 1024) q' → q' ≤ q) ∧
    ((∀ q0 ∈ qualityLadder qstart qmin step,
        ¬ goodQuality encode (max_size_kb * 1024) q0) →
      ∀ q s, save_with_quality_optimization encode max_size_kb qstart qmin step =
          some (.ok (q, s)) → q = qmin) := by
  have hterm := loopAux_terminates encode (max_size_kb * 1024) qmin step hstep
    (saveFuel qstart qmin) qstart (by unfold saveFuel; omega)
  refine ⟨fun x => mem_ladderAux qmin step hstep (saveFuel qstart qmin) qstart x
    (by unfold saveFuel; omega), ?_, ?_⟩
  · intro hex
    cases hl : loopAux encode (max_size_kb * 1024) qmin step qstart
        (saveFuel qstart qmin) with
    | none => exact absurd hl hterm
    | some o =>
      cases o with
      | some p =>
        obtain ⟨q, s⟩ := p
        obtain ⟨hmem, henc, hle, hmax⟩ :=
          loopAux_found encode (max_size_kb * 1024) qmin step hstep
            (saveFuel qstart qmin) qstart q s hl
        exact ⟨q, s, by simp [save_with_quality_optimization, hl], hmem, henc,
          hle, hmax⟩
      | none =>
        obtain ⟨q0, hq0, hg⟩ := hex
        exact absurd hg (loopAux_exhausted encode (max_size_kb * 1024) qmin step
          (saveFuel qstart qmin) qstart hl q0 hq0)
  · intro hall q' s' hsv
    cases hl : loopAux encode (max_size_kb * 1024) qmin step qstart
        (saveFuel qstart qmin) with
    | none => exact absurd hl hterm
    | some o =>
      cases o with
      | some p =>
        obtain ⟨q, s⟩ := p
        obtain ⟨hmem, henc, hle, _⟩ :=
          loopAux_found encode (max_size_kb * 1024) qmin step hstep
            (saveFuel qstart qmin) qstart q s hl
        exact absurd (⟨s, henc, hle⟩ : goodQuality encode (max_size_kb * 1024) q)
          (hall q hmem)
      | none =>
        simp only [save_with_quality_optimization, hl] at hsv
        cases he : encode qmin with
        | none => rw [he] at hsv; simp at hsv
        | some s0 =>
          rw [he] at hsv
          simp only [Option.some.injEq, Except.ok.injEq, Prod.mk.injEq] at hsv
          exact hsv.1.symm

/-- Witness for C2 at a concrete instance: `encode` always yields 100
bytes, budget 1 KB, ladder `2, 1`. -/
theorem claim_C2_witness :
    (1 ≤ (1 : Int)) ∧ (0 < (1 : Nat)) ∧
    ((∀ x : Int, x ∈ qualityLadder 2 1 1 ↔
        ∃ k : Nat, x = 2 - (k : Int) * 1 ∧ 1 ≤ x) ∧
     ((∃ q0 ∈ qualityLadder 2 1 1,
         goodQuality (fun _ => some 100) (1 * 1024) q0) →
       ∃ q s, save_with_quality_optimization (fun _ => some 100) 1 2 1 1 =
           some (.ok (q, s)) ∧
         q ∈ qualityLadder 2 1 1 ∧ some 100 = some s ∧ s ≤ 1 * 1024 ∧
         ∀ q' ∈ qualityLadder 2 1 1,
           goodQuality (fun _ => some 100) (1 * 1024) q' → q' ≤ q) ∧
     ((∀ q0 ∈ qualityLadder 2 1 1,
         ¬ goodQuality (fun _ => some 100) (1 * 1024) q0) →
       ∀ q s, save_with_quality_optimization (fun _ => some 100) 1 2 1 1 =
           some (.ok (q, s)) → q = 1)) :=
  ⟨by decide, by decide, claim_C2 (fun _ => some 100) 1 2 1 1 (by decide) (by decide)⟩

/-- Claim C7.  When the descending-quality loop exhausts without a
within-budget encode, the encoder performs one forced encode at
`quality_min` and persists it regardless of its size; it fails with an
encode error exactly when that forced minimum-quality encode fails at
the codec level. -/
theorem claim_C7 (encode : Int → Option Nat) (max_size_kb : Nat)
    (qstart qmin step : Int) :
    (loopAux encode (max_size_kb * 1024) qmin step qstart (saveFuel qstart qmin) =
        some none →
      (∀ s, encode qmin = some s →
        save_with_quality_optimization encode max_size_kb qstart qmin step =
          some (.ok (qmin, s))) ∧
      (encode qmin = none →
        save_with_quality_optimization encode max_size_kb qstart qmin step =
          some (.error ()))) ∧
    (save_with_quality_optimization encode max_size_kb qstart qmin step =
        some (.error ()) →
      encode qmin = none ∧
      loopAux encode (max_size_kb * 1024) qmin step qstart (saveFuel qstart qmin) =
        some none) := by
  constructor
  · intro hl
    constructor
    · intro s hs
      simp [save_with_quality_optimization, hl, hs]
    · intro hn
      simp [save_with_quality_optimization, hl, hn]
  · intro hsv
    cases hl : loopAux encode (max_size_kb * 1024) qmin step qstart
        (saveFuel qstart qmin) with
    | none => simp [save_with_quality_optimization, hl] at hsv
    | some o =>
      cases o with
      | none =>
        cases he : encode qmin with
        | none => exact ⟨rfl, rfl⟩
        | some s => simp [save_with_quality_optimization, hl, he] at hsv
      | some p =>
        obtain ⟨q, s⟩ := p
        simp [save_with_quality_optimization, hl] at hsv

/-- Witness for C7 at a concrete instance: every encode is 2000000
bytes against a 1 KB budget, so the ladder `2, 1` exhausts and the
forced minimum-quality encode is persisted although it is far over
budget. -/
theorem claim_C7_witness :
    save_with_quality_optimization (fun _ => some 2000000) 1 2 1 1 =
      some (.ok (1, 2000000)) :=
  ((claim_C7 (fun _ => some 2000000) 1 2 1 1).1 (by decide)).1 2000000 rfl

/-- Claim C9.  The quality search terminates for every image when
`quality_step ≥ 1`; with `quality_step ≤ 0`, `quality_start ≥
quality_min` and every successful encode over budget, the loop runs
forever (no fuel suffices). -/
theorem claim_C9 (encode : Int → Option Nat) (max_size_kb : Nat)
    (qstart qmin step : Int) :
    (1 ≤ step →
      ∃ r, save_with_quality_optimization encode max_size_kb qstart qmin step =
        some r) ∧
    (step ≤ 0 → qmin ≤ qstart →
      (∀ q s, encode q = some s → max_size_kb * 1024 < s) →
      ∀ fuel : Nat,
        loopAux encode (max_size_kb * 1024) qmin step qstart fuel = none) := by
  constructor
  · intro hstep
    cases hs : save_with_quality_optimization encode max_size_kb qstart qmin step with
    | none => exact absurd hs (save_ne_none _ _ _ _ _ hstep)
    | some r => exact ⟨r, rfl⟩
  · intro hstep hq hbad fuel
    exact loopAux_diverges encode (max_size_kb * 1024) qmin step hstep hbad
      fuel qstart hq

/-- Witness for C9: termination at step 1, and divergence at step 0
observed at fuel 5 (the statement of C9 gives it for every fuel). -/
theorem claim_C9_witness :
    (∃ r, save_with_quality_optimization (fun _ => some 100) 1 2 1 1 = some r) ∧
    loopAux (fun _ => some 2000000) (1 * 1024) 1 0 2 5 = none :=
  ⟨(claim_C9 (fun _ => some 100) 1 2 1 1).1 (by decide),
   (claim_C9 (fun _ => some 2000000) 1 2 1 0).2 (by decide) (by decide)
     (by intro q s h; simp at h; omega) 5⟩

/-- Claim C3 counterexample.  The claim quantifies over all padding
factors; at padding factor −1 (a valid float configuration value) the
crop rectangle for the box (0,0,10,10) in a 20×20 image is
(15, 15, 0, 0), which violates `x1 ≤ x2`: the bounding box is valid
(`x1 < x2`, `y1 < y2`) yet the output rectangle is not ordered. -/
theorem claim_C3_counterexample :
    ((⟨0, 0, 10, 10, none⟩ : Face).x1 < (⟨0, 0, 10, 10, none⟩ : Face).x2) ∧
    ((⟨0, 0, 10, 10, none⟩ : Face).y1 < (⟨0, 0, 10, 10, none⟩ : Face).y2) ∧
    calculate_crop_region (-1) (-1) ⟨0, 0, 10, 10, none⟩ 20 20 =
      (15, 15, 0, 0) ∧
    ¬ ((15 : Int) ≤ 0) := by
  refine ⟨by norm_num, by norm_num, ?_, by norm_num⟩
  have h0 : pyInt (0 : ℚ) = 0 := by simp [pyInt]
  have h10 : pyInt (10 : ℚ) = 10 := by
    rw [pyInt, if_pos (by norm_num)]
    simp
  have hm10 : pyInt (-10 : ℚ) = -10 := by
    rw [pyInt, if_neg (by norm_num)]
    rw [show ((-10 : ℚ)) = ((-10 : ℤ) : ℚ) by norm_num]
    exact Int.ceil_intCast _
  unfold calculate_crop_region
  dsimp only
  rw [h0, h10]
  have harg : ((10 - 0 : ℤ) : ℚ) * (-1 : ℚ) = (-10 : ℚ) := by
    push_cast
    ring
  rw [harg, hm10]
  unfold clamp
  decide

/-- Claim C3 (amended).  For every valid face box (`x1 < x2`,
`y1 < y2`), nonnegative padding factors, and image bounds, the crop
rectangle satisfies `0 ≤ x1 ≤ x2 ≤ width` and `0 ≤ y1 ≤ y2 ≤ height`. -/
theorem claim_C3_amended (face : Face) (pW pH : ℚ) (height width : Nat)
    (hx : face.x1 < face.x2) (hy : face.y1 < face.y2)
    (hpW : 0 ≤ pW) (hpH : 0 ≤ pH) :
    0 ≤ (calculate_crop_region pW pH face height width).1 ∧
    (calculate_crop_region pW pH face height width).1 ≤
      (calculate_crop_region pW pH face height width).2.2.1 ∧
    (calculate_crop_region pW pH face height width).2.2.1 ≤ (width : Int) ∧
    0 ≤ (calculate_crop_region pW pH face height width).2.1 ∧
    (calculate_crop_region pW pH face height width).2.1 ≤
      (calculate_crop_region pW pH face height width).2.2.2 ∧
    (calculate_crop_region pW pH face height width).2.2.2 ≤ (height : Int) := by
  have hx12 : pyInt face.x1 ≤ pyInt face.x2 := pyInt_mono hx.le
  have hy12 : pyInt face.y1 ≤ pyInt face.y2 := pyInt_mono hy.le
  have hpw : 0 ≤ pyInt (((pyInt face.x2 - pyInt face.x1 : ℤ) : ℚ) * pW) :=
    pyInt_nonneg (mul_nonneg (by exact_mod_cast sub_nonneg.mpr hx12) hpW)
  have hph : 0 ≤ pyInt (((pyInt face.y2 - pyInt face.y1 : ℤ) : ℚ) * pH) :=
    pyInt_nonneg (mul_nonneg (by exact_mod_cast sub_nonneg.mpr hy12) hpH)
  unfold calculate_crop_region
  dsimp only
  exact ⟨clamp_lower _ _ _, clamp_mono _ _ (by linarith),
    clamp_le_upper _ _ _ (Int.natCast_nonneg _), clamp_lower _ _ _,
    clamp_mono _ _ (by linarith), clamp_le_upper _ _ _ (Int.natCast_nonneg _)⟩

/-- Witness for the amended C3 at the box (0,0,10,10), padding factors
1, in a 20×20 image. -/
theorem claim_C3_amended_witness :
    ((0 : ℚ) < 10) ∧ ((0 : ℚ) < 10) ∧ ((0 : ℚ) ≤ 1) ∧ ((0 : ℚ) ≤ 1) ∧
    (0 ≤ (calculate_crop_region 1 1 ⟨0, 0, 10, 10, none⟩ 20 20).1 ∧
     (calculate_crop_region 1 1 ⟨0, 0, 10, 10, none⟩ 20 20).1 ≤
       (calculate_crop_region 1 1 ⟨0, 0, 10, 10, none⟩ 20 20).2.2.1 ∧
     (calculate_crop_region 1 1 ⟨0, 0, 10, 10, none⟩ 20 20).2.2.1 ≤ (20 : Int) ∧
     0 ≤ (calculate_crop_region 1 1 ⟨0, 0, 10, 10, none⟩ 20 20).2.1 ∧
     (calculate_crop_region 1 1 ⟨0, 0, 10, 10, none⟩ 20 20).2.1 ≤
       (calculate_crop_region 1 1 ⟨0, 0, 10, 10, none⟩ 20 20).2.2.2 ∧
     (calculate_crop_region 1 1 ⟨0, 0, 10, 10, none⟩ 20 20).2.2.2 ≤ (20 : Int)) :=
  ⟨by norm_num, by norm_num, by norm_num, by norm_num,
   claim_C3_amended ⟨0, 0, 10, 10, none⟩ 1 1 20 20 (by norm_num) (by norm_num)
     (by norm_num) (by norm_num)⟩

/-- Claim C4.  Every processed image increments the total counter and
exactly one of successful / no_face / poor_quality / failed, and after
a batch started from fresh statistics the total equals the sum of the
four outcome counters. -/
theorem claim_C4 (cfg : Config) :
    (∀ (s : Stats) (r : ProcessingResult),
      (updateStats cfg.min_face_confidence s r).total_files = s.total_files + 1 ∧
      (((updateStats cfg.min_face_confidence s r).successful = s.successful + 1 ∧
        (updateStats cfg.min_face_confidence s r).no_face = s.no_face ∧
        (updateStats cfg.min_face_confidence s r).poor_quality = s.poor_quality ∧
        (updateStats cfg.min_face_confidence s r).failed = s.failed) ∨
       ((updateStats cfg.min_face_confidence s r).successful = s.successful ∧
        (updateStats cfg.min_face_confidence s r).no_face = s.no_face + 1 ∧
        (updateStats cfg.min_face_confidence s r).poor_quality = s.poor_quality ∧
        (updateStats cfg.min_face_confidence s r).failed = s.failed) ∨
       ((updateStats cfg.min_face_confidence s r).successful = s.successful ∧
        (updateStats cfg.min_face_confidence s r).no_face = s.no_face ∧
        (updateStats cfg.min_face_confidence s r).poor_quality = s.poor_quality + 1 ∧
        (updateStats cfg.min_face_confidence s r).failed = s.failed) ∨
       ((updateStats cfg.min_face_confidence s r).successful = s.successful ∧
        (updateStats cfg.min_face_confidence s r).no_face = s.no_face ∧
        (updateStats cfg.min_face_confidence s r).poor_quality = s.poor_quality ∧
        (updateStats cfg.min_face_confidence s r).failed = s.failed + 1))) ∧
    (∀ (items : List BatchItem) (rs : List ProcessingResult) (sf : Stats)
        (mv : List (String × Bool)),
      process_batch cfg items {} = some (rs, sf, mv) →
      sf.total_files = sf.successful + sf.failed + sf.no_face + sf.poor_quality) := by
  constructor
  · intro s r
    unfold updateStats
    cases hc : classify cfg.min_face_confidence r
    · exact ⟨rfl, Or.inl ⟨rfl, rfl, rfl, rfl⟩⟩
    · exact ⟨rfl, Or.inr (Or.inl ⟨rfl, rfl, rfl, rfl⟩)⟩
    · exact ⟨rfl, Or.inr (Or.inr (Or.inl ⟨rfl, rfl, rfl, rfl⟩))⟩
    · exact ⟨rfl, Or.inr (Or.inr (Or.inr ⟨rfl, rfl, rfl, rfl⟩))⟩
  · intro items rs sf mv h
    exact process_batch_sum cfg items {} rs sf mv rfl h

/-- Witness for C4: a one-image batch whose image is unreadable; the
final statistics are total 1, no_face 1, and the sum identity holds. -/
theorem claim_C4_witness :
    process_batch ⟨1, 1, 1, (400, 400), 100, 95, 40, 5⟩
        [⟨⟨"u.jpg", none, none, none, [], none, none, fun _ => none, 0⟩, false⟩]
        {} =
      some ([⟨"u.jpg", false, false, 0, (0, 0), (0, 0), 0, 0,
              "Failed to read image", 0⟩],
        ⟨1, 0, 0, 1, 0⟩, [("u.jpg", true)]) ∧
    (⟨1, 0, 0, 1, 0⟩ : Stats).total_files =
      (⟨1, 0, 0, 1, 0⟩ : Stats).successful + (⟨1, 0, 0, 1, 0⟩ : Stats).failed +
      (⟨1, 0, 0, 1, 0⟩ : Stats).no_face + (⟨1, 0, 0, 1, 0⟩ : Stats).poor_quality := by
  have h : process_batch ⟨1, 1, 1, (400, 400), 100, 95, 40, 5⟩
      [⟨⟨"u.jpg", none, none, none, [], none, none, fun _ => none, 0⟩, false⟩]
      {} =
      some ([⟨"u.jpg", false, false, 0, (0, 0), (0, 0), 0, 0,
              "Failed to read image", 0⟩],
        ⟨1, 0, 0, 1, 0⟩, [("u.jpg", true)]) := by
    rfl
  exact ⟨h, (claim_C4 ⟨1, 1, 1, (400, 400), 100, 95, 40, 5⟩).2 _ _ _ _ h⟩

/-- Claim C5.  Under a positive quality step the per-image pipeline is
total: it always yields a `ProcessingResult`; a normal body return is
passed through, and a body exception is converted into the generic
failure record carrying the exception message and the elapsed time. -/
theorem claim_C5 (cfg : Config) (env : ImageEnv)
    (hstep : 1 ≤ cfg.jpeg_quality_step) :
    ∃ r : ProcessingResult, process_single_image cfg env = some r ∧
      (∀ r0, tryBody cfg env = some (.ok r0) → r = r0) ∧
      (∀ msg, tryBody cfg env = some (.error msg) →
        r = exceptionResult env.filename msg env.elapsed) := by
  cases h : tryBody cfg env with
  | none => exact absurd h (tryBody_ne_none cfg env hstep)
  | some e =>
    cases e with
    | ok r0 =>
      refine ⟨r0, by simp [process_single_image, h], ?_, ?_⟩
      · intro r1 h1
        simp only [Option.some.injEq, Except.ok.injEq] at h1
        exact h1
      · intro msg hm
        simp at hm
    | error m =>
      refine ⟨exceptionResult env.filename m env.elapsed,
        by simp [process_single_image, h], ?_, ?_⟩
      · intro r1 h1
        simp at h1
      · intro msg hm
        simp only [Option.some.injEq, Except.error.injEq] at hm
        rw [hm]

/-- Witness for C5: an exception injected at the read stage is caught
and converted into the generic failure record. -/
theorem claim_C5_witness :
    (1 ≤ (5 : Int)) ∧
    process_single_image ⟨1, 1, 1, (400, 400), 100, 95, 40, 5⟩
        ⟨"b.jpg", some "boom", none, none, [], none, none, fun _ => none, 2⟩ =
      some (exceptionResult "b.jpg" "boom" 2) := by
  obtain ⟨r, hr, -, herr⟩ := claim_C5 ⟨1, 1, 1, (400, 400), 100, 95, 40, 5⟩
    ⟨"b.jpg", some "boom", none, none, [], none, none, fun _ => none, 2⟩
    (by decide)
  have hb : tryBody ⟨1, 1, 1, (400, 400), 100, 95, 40, 5⟩
      ⟨"b.jpg", some "boom", none, none, [], none, none, fun _ => none, 2⟩ =
      some (.error "boom") := rfl
  refine ⟨by decide, ?_⟩
  rw [hr, herr "boom" hb]

/-- Claim C10.  A failure before face selection — an unreadable image,
or any exception escaping the body — produces a result with
`face_detected = false` and confidence 0, which the batch classifier
counts as `no_face` (not `failed`). -/
theorem claim_C10 (cfg : Config) (env : ImageEnv) :
    (env.read_exn = none → env.image = none →
      ∃ r, process_single_image cfg env = some r ∧ r.face_detected = false ∧
        r.face_confidence = 0 ∧ r.error_message = "Failed to read image" ∧
        classify cfg.min_face_confidence r = Outcome.no_face) ∧
    (∀ msg, tryBody cfg env = some (.error msg) →
      ∃ r, process_single_image cfg env = some r ∧ r.face_detected = false ∧
        r.face_confidence = 0 ∧ r.error_message = msg ∧
        classify cfg.min_face_confidence r = Outcome.no_face) := by
  constructor
  · intro h1 h2
    refine ⟨⟨env.filename, false, false, 0, (0, 0), (0, 0), 0, 0,
      "Failed to read image", 0⟩, ?_, rfl, rfl, rfl, rfl⟩
    simp [process_single_image, tryBody, h1, h2]
  · intro msg hm
    refine ⟨exceptionResult env.filename msg env.elapsed, ?_, rfl, rfl, rfl, rfl⟩
    simp [process_single_image, hm]

/-- Witness for C10: the unreadable-image case at a concrete
environment, classified as `no_face`. -/
theorem claim_C10_witness :
    ∃ r, process_single_image ⟨1, 1, 1, (400, 400), 100, 95, 40, 5⟩
        ⟨"u.jpg", none, none, none, [], none, none, fun _ => none, 0⟩ = some r ∧
      r.face_detected = false ∧ r.face_confidence = 0 ∧
      r.error_message = "Failed to read image" ∧
      classify (⟨1, 1, 1, (400, 400), 100, 95, 40, 5⟩ : Config).min_face_confidence r =
        Outcome.no_face :=
  (claim_C10 ⟨1, 1, 1, (400, 400), 100, 95, 40, 5⟩
    ⟨"u.jpg", none, none, none, [], none, none, fun _ => none, 0⟩).1 rfl rfl

/-- Claim C8.  Under a positive quality step, a batch yields one result
per input; the quarantine-move list is exactly the failed results'
source filenames under their original names (successful images are
never moved); and the results and statistics are unchanged whatever
the move outcomes — a failed move never aborts the batch. -/
theorem claim_C8 (cfg : Config) (items : List BatchItem) (s0 : Stats)
    (hstep : 1 ≤ cfg.jpeg_quality_step) :
    ∃ rs sf mv, process_batch cfg items s0 = some (rs, sf, mv) ∧
      rs.length = items.length ∧
      mv = (items.zip rs).filterMap (fun p =>
        if p.2.success then none
        else some (p.1.env.filename, !p.1.move_fails)) ∧
      ∀ b : Bool,
        Option.map (fun t => (t.1, t.2.1))
            (process_batch cfg
              (items.map (fun it => { it with move_fails := b })) s0) =
          some (rs, sf) := by
  obtain ⟨rs, sf, mv, hb, hlen, hmv⟩ := process_batch_spec cfg hstep items s0
  refine ⟨rs, sf, mv, hb, hlen, hmv, ?_⟩
  intro b
  rw [process_batch_moves_irrelevant cfg b items s0, hb]
  rfl

/-- Witness for C8: a one-image batch whose image is unreadable, with a
failing quarantine move (`move_fails = true`); the batch still returns
its result list and statistics. -/
theorem claim_C8_witness :
    (1 ≤ (5 : Int)) ∧
    ∃ rs sf mv, process_batch ⟨1, 1, 1, (400, 400), 100, 95, 40, 5⟩
        ([⟨⟨"u.jpg", none, none, none, [], none, none, fun _ => none, 0⟩,
          true⟩] : List BatchItem)
        {} = some (rs, sf, mv) ∧
      rs.length =
        ([⟨⟨"u.jpg", none, none, none, [], none, none, fun _ => none, 0⟩,
          true⟩] : List BatchItem).length ∧
      mv = (([⟨⟨"u.jpg", none, none, none, [], none, none, fun _ => none, 0⟩,
          true⟩] : List BatchItem).zip rs).filterMap (fun p =>
        if p.2.success then none
        else some (p.1.env.filename, !p.1.move_fails)) ∧
      ∀ b : Bool,
        Option.map (fun t => (t.1, t.2.1))
            (process_batch ⟨1, 1, 1, (400, 400), 100, 95, 40, 5⟩
              (([⟨⟨"u.jpg", none, none, none, [], none, none, fun _ => none, 0⟩,
                true⟩] : List BatchItem).map
                (fun it => { it with move_fails := b }))
              {}) =
          some (rs, sf) :=
  ⟨by decide, claim_C8 ⟨1, 1, 1, (400, 400), 100, 95, 40, 5⟩
    [⟨⟨"u.jpg", none, none, none, [], none, none, fun _ => none, 0⟩, true⟩]
    {} (by decide)⟩

/-- Claim C6 counterexample.  With configured extension ".jpg", the
file "a.Jpg" matches case-insensitively, yet the enumeration (which
globs only the extension as configured and its fully upper-cased
variant) selects nothing. -/
theorem claim_C6_counterexample :
    matchesCaseInsensitive ['.', 'j', 'p', 'g'] ['a', '.', 'J', 'p', 'g'] =
      true ∧
    get_input_files [['a', '.', 'J', 'p', 'g']] [['.', 'j', 'p', 'g']] = [] := by
  constructor
  · decide
  · decide

/-- Claim C6 (amended).  The enumeration selects exactly the files
whose name ends with a configured extension as configured, or with
that extension fully upper-cased; the batch's processing order is the
lexicographic sort of the enumerated names. -/
theorem claim_C6_amended (names exts : List (List Char)) :
    List.Sorted (· ≤ ·) (get_input_files names exts) ∧
    ∀ n, n ∈ get_input_files names exts ↔
      ∃ ext ∈ exts, n ∈ names ∧
        (ext.isSuffixOf n = true ∨
          (ext.map Char.toUpper).isSuffixOf n = true) := by
  constructor
  · exact List.sorted_insertionSort _ _
  · intro n
    unfold get_input_files
    rw [List.Perm.mem_iff (List.perm_insertionSort _ _)]
    simp only [List.mem_flatMap, List.mem_append, List.mem_filter]
    constructor
    · rintro ⟨ext, hext, h | h⟩
      · exact ⟨ext, hext, h.1, Or.inl h.2⟩
      · exact ⟨ext, hext, h.1, Or.inr h.2⟩
    · rintro ⟨ext, hext, hn, h | h⟩
      · exact ⟨ext, hext, Or.inl ⟨hn, h⟩⟩
      · exact ⟨ext, hext, Or.inr ⟨hn, h⟩⟩

end FaceCrop
